import Mathlib

/-!
Shallow embedding of the speech orchestration engine of the repository
(the `useSpeechSynthesis` hook): voice selection, segment normalization,
the utterance queue, cancellation, mute, and the asynchronous playback
lifecycle events delivered by the platform speech capability.

The engine's mutable React refs and state setters are modelled as fields of
one `EngineState` record; the platform (`window.speechSynthesis`) is
modelled as the list of utterances currently handed to it plus a count of
cancelled utterances whose lifecycle events are still pending delivery.
Caller-supplied `onEnd` callbacks are modelled as opaque numeric ids; the
ghost field `fired` logs each invocation and the ghost field `spoken` logs
each hand-over of an utterance to the platform, so that exactly-once and
FIFO properties can be stated.
-/

namespace SpeechEngine

/-- One language-tagged unit of text, as in `types.ts`: `{ text, lang }`.
`lang` is the application-level language code. -/
structure SpeechSegment where
  text : String
  lang : String
deriving DecidableEq, Repr

/-- A platform voice (`SpeechSynthesisVoice`): the code reads only its
`name` and `lang` fields; the gender-bearing descriptive label is the
`name` string itself (the code tests `v.name.toLowerCase().includes(...)`). -/
structure Voice where
  name : String
  lang : String
deriving DecidableEq, Repr

/-- `const MOUTH_SHAPES = ['A','B','C','D','E','F','G','H']`. -/
def MOUTH_SHAPES : List String := ["A", "B", "C", "D", "E", "F", "G", "H"]

/-- Whether the character list `l` starts with the character list `p`. -/
def charsStartWith : List Char → List Char → Bool
  | _, [] => true
  | [], _ :: _ => false
  | c :: cs, p :: ps => c = p && charsStartWith cs ps

/-- Whether `pat` occurs contiguously anywhere inside `hay`. -/
def charsContain (pat : List Char) : List Char → Bool
  | [] => pat.isEmpty
  | c :: rest => charsStartWith (c :: rest) pat || charsContain pat rest

/-- JavaScript `s.includes(pat)`: substring containment. -/
def strIncludes (s pat : String) : Bool :=
  charsContain pat.toList s.toList

/-- JavaScript `s.trim()`: strip whitespace from both ends. -/
def jsTrim (s : String) : String :=
  String.mk (((s.toList.dropWhile Char.isWhitespace).reverse.dropWhile
    Char.isWhitespace).reverse)

/-- JavaScript `s.toLowerCase()` (over the code's ASCII voice names). -/
def jsToLower (s : String) : String :=
  String.mk (s.toList.map Char.toLower)

/-- JavaScript `s.startsWith(p)`. -/
def jsStartsWith (s p : String) : Bool :=
  charsStartWith s.toList p.toList

/-- `bcp47Lang.split('-')[0]` : the primary subtag of a locale tag, i.e.
the characters before the first `'-'`. -/
def primarySubtag (tag : String) : String :=
  String.mk (tag.toList.takeWhile fun c => c != '-')

/-- `voices.filter(v => v.lang.startsWith(bcp47Lang.split('-')[0]))`. -/
def voiceCandidates (voices : List Voice) (bcp47Lang : String) : List Voice :=
  voices.filter fun v => jsStartsWith v.lang (primarySubtag bcp47Lang)

/-- The voice-selection logic of `speak` (lines 404-420 of the hook):
filter the catalog by primary subtag, take the exact full-locale match as
the default best voice, and if a gender hint is present and some candidate
name contains it (case-insensitively), take the exact-locale match among
those, else the first of those. -/
def selectVoice (voices : List Voice) (bcp47Lang : String)
    (desiredGender : Option String) : Option Voice :=
  let candidates := voiceCandidates voices bcp47Lang
  let best := candidates.find? fun v => v.lang == bcp47Lang
  match desiredGender with
  | none => best
  | some g =>
    let genderFiltered := candidates.filter fun v => strIncludes (jsToLower v.name) g
    if genderFiltered.isEmpty then best
    else
      match genderFiltered.find? fun v => v.lang == bcp47Lang with
      | some v => some v
      | none => genderFiltered.head?

/-- One `SpeechSynthesisUtterance` as the code configures it: its text,
its BCP-47 locale tag, and the voice assigned to it (none means the
platform default is used). -/
structure Utterance where
  text : String
  lang : String
  voice : Option Voice
deriving DecidableEq, Repr

/-- The platform speech capability (`window.speechSynthesis`): `current`
is its internal queue of utterances handed over by `speak()` and not yet
finished (head is the one audibly playing); `stale` counts cancelled
utterances whose lifecycle end/error events have not yet been delivered
(`window.speechSynthesis.cancel()` fires those events asynchronously). -/
structure Platform where
  current : List Utterance
  stale : Nat
deriving DecidableEq, Repr

/-- The engine's whole mutable state: the observable React state
(`isMuted`, `isSpeaking`, `spokenText`, `mouthShape`), the refs
(`utteranceQueue`, `onEndCallback`, `mouthShapeInterval`), the platform,
and two ghost logs: `fired` records the ids of invoked `onEnd` callbacks in
order, `spoken` records utterances in the order they were handed to the
platform. -/
structure EngineState where
  isMuted : Bool
  isSpeaking : Bool
  spokenText : String
  mouthShape : String
  queue : List Utterance
  onEndCb : Option Nat
  intervalActive : Bool
  platform : Platform
  fired : List Nat
  spoken : List Utterance
deriving DecidableEq, Repr

/-- Static configuration of the hook: whether `window.speechSynthesis`
exists, the voice catalog snapshot, the `bcp47LanguageMap` (as a lookup
function plus its key set), and the hook's `globalLanguage` argument. -/
structure Config where
  available : Bool
  voices : List Voice
  bcpMap : String → String
  bcpKeys : List String
  globalLanguage : String

/-- The initial state of the hook: not muted, not speaking, empty spoken
text, neutral mouth shape `'X'`, empty queue, no callback, no interval. -/
def initState : EngineState :=
  { isMuted := false, isSpeaking := false, spokenText := "", mouthShape := "X",
    queue := [], onEndCb := none, intervalActive := false,
    platform := { current := [], stale := 0 }, fired := [], spoken := [] }

/-- Invoke a caller-supplied callback (modelled by logging its id). -/
def fireCb (onEnd : Option Nat) (s : EngineState) : EngineState :=
  { s with fired := s.fired ++ onEnd.toList }

/-- `processQueue` (lines 333-351): if the utterance queue is non-empty,
shift the head and hand it to the platform; otherwise clear speaking state,
snap the mouth shape to neutral, stop the viseme interval, and invoke and
clear the stored completion callback. -/
def processQueue (s : EngineState) : EngineState :=
  match s.queue with
  | u :: rest =>
    { s with queue := rest,
             platform := { s.platform with current := s.platform.current ++ [u] },
             spoken := s.spoken ++ [u] }
  | [] =>
    { s with isSpeaking := false, mouthShape := "X", intervalActive := false,
             fired := s.fired ++ s.onEndCb.toList, onEndCb := none }

/-- `window.speechSynthesis.cancel()`: the platform drops its internal
queue; each dropped utterance will still deliver one (now stale) lifecycle
event asynchronously. -/
def platformCancel (p : Platform) : Platform :=
  { current := [], stale := p.stale + p.current.length }

/-- `cancel` (lines 353-365): empty the queue, drop the stored callback
without invoking it, stop the viseme interval, force `isSpeaking = false`
and neutral mouth shape, and stop the platform. -/
def cancel (s : EngineState) : EngineState :=
  { s with queue := [], onEndCb := none, intervalActive := false,
           isSpeaking := false, mouthShape := "X",
           platform := platformCancel s.platform }

/-- The retention test of normalization:
`s.text && s.text.trim().length > 0`. -/
def keepSegment (seg : SpeechSegment) : Bool :=
  seg.text != "" && (jsTrim seg.text).length > 0

/-- `segments.filter(s => s.text && s.text.trim().length > 0)`. -/
def normalizeSegments (segs : List SpeechSegment) : List SpeechSegment :=
  segs.filter keepSegment

/-- Build the utterance for one segment as the body of the `for` loop in
`speak` does: look up the BCP-47 tag, derive the gender hint from
`langOrGender`, and run voice selection. -/
def buildUtterance (cfg : Config) (langOrGender : String)
    (seg : SpeechSegment) : Utterance :=
  let bcp47Lang := cfg.bcpMap seg.lang
  let isInterview := langOrGender == "male" || langOrGender == "female"
  let desiredGender := if isInterview then some langOrGender else none
  { text := seg.text, lang := bcp47Lang,
    voice := selectVoice cfg.voices bcp47Lang desiredGender }

/-- The part of `speak` from normalization onward (lines 385-445),
applied to the already-cancelled state `s1`: drop blank segments, degrade
synchronously if nothing remains, else publish
`spokenText`/`isSpeaking`/an initial mouth shape, store the callback,
push all utterances, and start the queue if the platform is not already
speaking. -/
def speakRun (cfg : Config) (segments0 : List SpeechSegment)
    (onEnd : Option Nat) (langOrGender : String) (s1 : EngineState) : EngineState :=
  let segments := normalizeSegments segments0
  if segments.isEmpty then fireCb onEnd s1
  else
    let fullOriginalText := String.intercalate " " (segments.map SpeechSegment.text)
    let s2 := { s1 with
      spokenText := fullOriginalText, isSpeaking := true, mouthShape := "A",
      onEndCb := onEnd,
      queue := s1.queue ++ segments.map (buildUtterance cfg langOrGender) }
    if s2.platform.current.isEmpty then processQueue s2 else s2

/-- `speak` (lines 367-445): if muted or the platform capability is
absent, invoke `onEnd` synchronously and return; otherwise wrap a plain
string input into one segment tagged with the validated language, cancel
whatever is in flight, and run the rest of the request (`speakRun`). -/
def speak (cfg : Config) (textOrSegments : Sum String (List SpeechSegment))
    (onEnd : Option Nat) (langOrGender : String) (s : EngineState) : EngineState :=
  if s.isMuted || !cfg.available then fireCb onEnd s
  else
    let segments :=
      match textOrSegments with
      | Sum.inl text =>
        let lang := if cfg.bcpKeys.contains langOrGender then langOrGender
                    else cfg.globalLanguage
        [{ text := text, lang := lang }]
      | Sum.inr segs => segs
    speakRun cfg segments onEnd langOrGender (cancel s)

/-- `toggleMute` (lines 447-455): flip the flag; entering mute first runs
`cancel`. -/
def toggleMute (s : EngineState) : EngineState :=
  let nextState := !s.isMuted
  let s1 := if nextState then cancel s else s
  { s1 with isMuted := nextState }

/-- Asynchronously delivered occurrences: the playing utterance's `onend`
(`finish`) or `onerror` (`err`), a cancelled utterance's late lifecycle
event (`staleEv`), the playing utterance's `onstart` (`started`), and one
tick of the viseme interval publishing a random mouth shape (`tick`). -/
inductive Ev where
  | finish : Ev
  | err : Ev
  | staleEv : Ev
  | started : Ev
  | tick : String → Ev
deriving DecidableEq, Repr

/-- Deliver one event, if it is enabled in state `s`. The handlers are
those the code installs: `onend` and `onerror` both run `processQueue`
(the platform first retires the utterance), a stale event of a cancelled
utterance likewise runs its handler `processQueue`, `onstart` starts the
viseme interval, and an interval tick publishes a shape from
`MOUTH_SHAPES`. -/
def stepEv : Ev → EngineState → Option EngineState
  | Ev.finish, s =>
    match s.platform.current with
    | _ :: rest =>
      some (processQueue { s with platform := { s.platform with current := rest } })
    | [] => none
  | Ev.err, s =>
    match s.platform.current with
    | _ :: rest =>
      some (processQueue { s with platform := { s.platform with current := rest } })
    | [] => none
  | Ev.staleEv, s =>
    match s.platform.stale with
    | Nat.succ n =>
      some (processQueue { s with platform := { s.platform with stale := n } })
    | 0 => none
  | Ev.started, s =>
    match s.platform.current with
    | _ :: _ => some { s with intervalActive := true }
    | [] => none
  | Ev.tick shape, s =>
    if s.intervalActive && MOUTH_SHAPES.contains shape then
      some { s with mouthShape := shape }
    else none

/-- Run a list of events; an event that is not enabled is a no-op (it
simply has not occurred). -/
def runEvents : List Ev → EngineState → EngineState
  | [], s => s
  | e :: es, s => runEvents es ((stepEv e s).getD s)

/-- One action of any of the engine's logical callers: a platform
lifecycle event, a `speak` request, a `cancel`, or a `toggleMute`. -/
inductive Act where
  | ev : Ev → Act
  | speakAct : Sum String (List SpeechSegment) → Option Nat → String → Act
  | cancelAct : Act
  | muteAct : Act

/-- Apply one action to the engine state. -/
def applyAct (cfg : Config) (a : Act) (s : EngineState) : EngineState :=
  match a with
  | Act.ev e => (stepEv e s).getD s
  | Act.speakAct inp onEnd g => speak cfg inp onEnd g s
  | Act.cancelAct => cancel s
  | Act.muteAct => toggleMute s

/-- Run a list of actions in order. -/
def runActs (cfg : Config) : List Act → EngineState → EngineState
  | [], s => s
  | a :: rest, s => runActs cfg rest (applyAct cfg a s)

/-- The action does not hand the callback id `i` to a new `speak` request
(callers pass each request a fresh callback). -/
def ActFresh (i : Nat) : Act → Prop
  | Act.speakAct _ onEnd _ => onEnd ≠ some i
  | _ => True

/-- How often the callback id `i` can still be invoked in total: the
number of invocations already logged plus one if it is currently stored as
the pending completion callback. -/
def cbBudget (i : Nat) (s : EngineState) : Nat :=
  s.fired.count i + (if s.onEndCb = some i then 1 else 0)

/-- A sample configuration: the platform capability is present, the voice
catalog is empty, and the application-language map sends everything to
`"en-US"` (the map itself lives outside the engine). -/
def cfgDemo : Config :=
  { available := true, voices := [], bcpMap := fun _ => "en-US",
    bcpKeys := ["en"], globalLanguage := "en" }

/-- Voice "A" of the catalog of claim C4: locale `en-GB`, gender-bearing
label "male" (the code reads the label from the voice's name string). -/
def vA : Voice := { name := "A male", lang := "en-GB" }

/-- Voice "B" of the catalog of claim C4: locale `en-US`, gender-bearing
label "female". -/
def vB : Voice := { name := "B female", lang := "en-US" }

/-- Claim C3, counterexample: with the catalog `[{name "A", locale
"en-GB"}]` and target locale `"en-US"`, the primary-subtag filtered set is
non-empty (it contains the voice) and holds no exact full-locale match, so
the claim demands the first filtered candidate; the code instead returns
no voice at all — the ungendered path has no first-candidate fallback. -/
theorem C3_counterexample :
    voiceCandidates [{ name := "A", lang := "en-GB" }] "en-US"
      = [{ name := "A", lang := "en-GB" }] ∧
    selectVoice [{ name := "A", lang := "en-GB" }] "en-US" none = none := by
  decide

/-- Claim C3, amended: with no gender hint, voice selection returns
exactly the first voice of the primary-subtag filtered set whose locale
equals the full target locale, and no voice when no such exact match
exists — even when the filtered set is non-empty. -/
theorem C3_amended_nogender_exact_or_none (voices : List Voice) (tag : String) :
    selectVoice voices tag none
      = (voiceCandidates voices tag).find? fun v => v.lang == tag := rfl

/-- Claim C4, counterexample: with the catalog of voices `vA` (locale
`en-GB`, label "male") and `vB` (locale `en-US`, label "female"),
selecting locale `"en-GB"` with gender hint `"female"` returns voice "B",
not voice "A" as the claim states: the gender filter runs over the whole
primary-subtag candidate set, where "B" matches, so the hint is not
dropped and the first gendered candidate wins over the locale-exact
ungendered match. -/
theorem C4_counterexample :
    selectVoice [vA, vB] "en-GB" (some "female") = some vB ∧ vB ≠ vA := by
  decide

/-- Claim C4, amended: on that catalog, selecting `"en-US"` with no
gender hint returns "B" (exact locale match), and selecting `"en-GB"`
with gender hint `"female"` also returns "B": "B" is the only
gender-matching voice among the primary-subtag candidates, and with no
exact `en-GB` match among the gendered candidates the first of them is
chosen. -/
theorem C4_amended_precedence :
    selectVoice [vA, vB] "en-US" none = some vB ∧
    selectVoice [vA, vB] "en-GB" (some "female") = some vB := by
  decide

/-- Claim C5: when the engine is muted, `speak` invokes the supplied
completion callback synchronously and performs no mutation at all — in
particular `isSpeaking`, `mouthShape` and `spokenText` are untouched. -/
theorem C5_mute_suppresses (cfg : Config) (inp : Sum String (List SpeechSegment))
    (onEnd : Option Nat) (g : String) (s : EngineState) (h : s.isMuted = true) :
    (speak cfg inp onEnd g s).fired = s.fired ++ onEnd.toList ∧
    (speak cfg inp onEnd g s).isSpeaking = s.isSpeaking ∧
    (speak cfg inp onEnd g s).mouthShape = s.mouthShape ∧
    (speak cfg inp onEnd g s).spokenText = s.spokenText ∧
    speak cfg inp onEnd g s = { s with fired := s.fired ++ onEnd.toList } := by
  simp [speak, h, fireCb]

/-- Claim C5, witness: a concrete muted state. -/
theorem C5_mute_suppresses_witness :
    (speak cfgDemo (Sum.inl "hello") (some 5) "en"
        { initState with isMuted := true }).fired = [] ++ (some 5).toList ∧
    (speak cfgDemo (Sum.inl "hello") (some 5) "en"
        { initState with isMuted := true }).isSpeaking
      = ({ initState with isMuted := true } : EngineState).isSpeaking ∧
    (speak cfgDemo (Sum.inl "hello") (some 5) "en"
        { initState with isMuted := true }).mouthShape
      = ({ initState with isMuted := true } : EngineState).mouthShape ∧
    (speak cfgDemo (Sum.inl "hello") (some 5) "en"
        { initState with isMuted := true }).spokenText
      = ({ initState with isMuted := true } : EngineState).spokenText ∧
    speak cfgDemo (Sum.inl "hello") (some 5) "en" { initState with isMuted := true }
      = { ({ initState with isMuted := true } : EngineState) with
            fired := [] ++ (some 5).toList } :=
  C5_mute_suppresses cfgDemo (Sum.inl "hello") (some 5) "en"
    { initState with isMuted := true } rfl

/-- Claim C6: `cancel` is idempotent as a state transformer, and calling
it when nothing is speaking (speaking flag down, neutral mouth shape)
changes none of the observable fields `isSpeaking`, `mouthShape`,
`spokenText`, `isMuted`. -/
theorem C6_cancel_idempotent :
    (∀ s : EngineState, cancel (cancel s) = cancel s) ∧
    (∀ s : EngineState, s.isSpeaking = false → s.mouthShape = "X" →
      (cancel s).isSpeaking = s.isSpeaking ∧ (cancel s).mouthShape = s.mouthShape ∧
      (cancel s).spokenText = s.spokenText ∧ (cancel s).isMuted = s.isMuted) := by
  constructor
  · intro s
    simp [cancel, platformCancel]
  · intro s h1 h2
    simp [cancel, h1, h2]

/-- Claim C6, witness: the idle initial state. -/
theorem C6_cancel_idempotent_witness :
    (cancel initState).isSpeaking = initState.isSpeaking ∧
    (cancel initState).mouthShape = initState.mouthShape ∧
    (cancel initState).spokenText = initState.spokenText ∧
    (cancel initState).isMuted = initState.isMuted :=
  C6_cancel_idempotent.2 initState rfl rfl

/-- Claim C8: a platform playback error for the in-flight utterance is
handled exactly like its normal end — the two events are the same state
transformer — and in particular, when further segments are queued, the
error makes the queue advance to the next segment without invoking any
callback (no error is surfaced to the caller). -/
theorem C8_error_equals_end :
    (∀ s : EngineState, stepEv Ev.err s = stepEv Ev.finish s) ∧
    (∀ (s : EngineState) (u : Utterance) (rest : List Utterance)
        (w : Utterance) (ws : List Utterance),
      s.platform.current = u :: rest → s.queue = w :: ws →
      stepEv Ev.err s
        = some { s with queue := ws,
                        platform := { s.platform with current := rest ++ [w] },
                        spoken := s.spoken ++ [w] }) := by
  constructor
  · intro s
    rfl
  · intro s u rest w ws hc hq
    simp [stepEv, hc, processQueue, hq]

/-- Claim C8, witness: a state with one utterance in flight and one more
queued; the error event retires the first and starts the second. -/
theorem C8_error_equals_end_witness :
    stepEv Ev.err
        { isMuted := false, isSpeaking := true, spokenText := "p q",
          mouthShape := "A",
          queue := [{ text := "q", lang := "en-US", voice := none }],
          onEndCb := some 3, intervalActive := true,
          platform := { current := [{ text := "p", lang := "en-US", voice := none }],
                        stale := 0 },
          fired := [], spoken := [{ text := "p", lang := "en-US", voice := none }] }
      = some { isMuted := false, isSpeaking := true, spokenText := "p q",
               mouthShape := "A", queue := [],
               onEndCb := some 3, intervalActive := true,
               platform := { current := [] ++ [{ text := "q", lang := "en-US", voice := none }],
                             stale := 0 },
               fired := [],
               spoken := [{ text := "p", lang := "en-US", voice := none }]
                 ++ [{ text := "q", lang := "en-US", voice := none }] } :=
  C8_error_equals_end.2
    { isMuted := false, isSpeaking := true, spokenText := "p q",
      mouthShape := "A",
      queue := [{ text := "q", lang := "en-US", voice := none }],
      onEndCb := some 3, intervalActive := true,
      platform := { current := [{ text := "p", lang := "en-US", voice := none }],
                    stale := 0 },
      fired := [], spoken := [{ text := "p", lang := "en-US", voice := none }] }
    { text := "p", lang := "en-US", voice := none } []
    { text := "q", lang := "en-US", voice := none } [] rfl rfl

/-- Claim C9: segments whose text is empty or whitespace-only are all
dropped by normalization, and a request that normalizes to zero segments
invokes its callback synchronously and ends with the speaking flag down,
a neutral mouth shape, an unchanged `spokenText`, and an empty queue. -/
theorem C9_empty_normalization (cfg : Config) (segs : List SpeechSegment)
    (onEnd : Option Nat) (g : String) (s : EngineState)
    (ha : cfg.available = true) (hm : s.isMuted = false)
    (hw : ∀ seg ∈ segs, jsTrim seg.text = "") :
    normalizeSegments segs = [] ∧
    (speak cfg (Sum.inr segs) onEnd g s).fired = s.fired ++ onEnd.toList ∧
    (speak cfg (Sum.inr segs) onEnd g s).isSpeaking = false ∧
    (speak cfg (Sum.inr segs) onEnd g s).mouthShape = "X" ∧
    (speak cfg (Sum.inr segs) onEnd g s).spokenText = s.spokenText ∧
    (speak cfg (Sum.inr segs) onEnd g s).queue = [] := by
  have hnil : normalizeSegments segs = [] := by
    rw [normalizeSegments, List.filter_eq_nil_iff]
    intro seg hseg
    simp [keepSegment, hw seg hseg]
  refine ⟨hnil, ?_⟩
  simp [speak, speakRun, hm, ha, hnil, fireCb, cancel, platformCancel]

/-- Claim C9, witness: two degenerate segments (empty and
whitespace-only) from the initial state. -/
theorem C9_empty_normalization_witness :
    normalizeSegments [⟨"", "en"⟩, ⟨"   ", "en"⟩] = [] ∧
    (speak cfgDemo (Sum.inr [⟨"", "en"⟩, ⟨"   ", "en"⟩]) (some 7) "en"
        initState).fired = initState.fired ++ (some 7).toList ∧
    (speak cfgDemo (Sum.inr [⟨"", "en"⟩, ⟨"   ", "en"⟩]) (some 7) "en"
        initState).isSpeaking = false ∧
    (speak cfgDemo (Sum.inr [⟨"", "en"⟩, ⟨"   ", "en"⟩]) (some 7) "en"
        initState).mouthShape = "X" ∧
    (speak cfgDemo (Sum.inr [⟨"", "en"⟩, ⟨"   ", "en"⟩]) (some 7) "en"
        initState).spokenText = initState.spokenText ∧
    (speak cfgDemo (Sum.inr [⟨"", "en"⟩, ⟨"   ", "en"⟩]) (some 7) "en"
        initState).queue = [] :=
  C9_empty_normalization cfgDemo [⟨"", "en"⟩, ⟨"   ", "en"⟩] (some 7) "en"
    initState rfl rfl (by decide)

/-- Claim C10: `spokenText` is never modified by `cancel`, by any
delivered lifecycle event (in particular queue drain), by `toggleMute`,
or by a `speak` that is suppressed (muted, or normalizing to zero
segments); only a successful `speak` overwrites it, and then with the
space-joined text of the retained segments of the new request. -/
theorem C10_spokenText_frame :
    (∀ s : EngineState, (cancel s).spokenText = s.spokenText) ∧
    (∀ (s : EngineState) (e : Ev),
      ((stepEv e s).getD s).spokenText = s.spokenText) ∧
    (∀ s : EngineState, (toggleMute s).spokenText = s.spokenText) ∧
    (∀ (cfg : Config) (inp : Sum String (List SpeechSegment))
        (onEnd : Option Nat) (g : String) (s : EngineState),
      s.isMuted = true → (speak cfg inp onEnd g s).spokenText = s.spokenText) ∧
    (∀ (cfg : Config) (segs : List SpeechSegment) (onEnd : Option Nat)
        (g : String) (s : EngineState), normalizeSegments segs = [] →
      (speak cfg (Sum.inr segs) onEnd g s).spokenText = s.spokenText) ∧
    (∀ (cfg : Config) (segs : List SpeechSegment) (onEnd : Option Nat)
        (g : String) (s : EngineState),
      s.isMuted = false → cfg.available = true → normalizeSegments segs ≠ [] →
      (speak cfg (Sum.inr segs) onEnd g s).spokenText
        = String.intercalate " " ((normalizeSegments segs).map SpeechSegment.text)) := by
  have hpq : ∀ s : EngineState, (processQueue s).spokenText = s.spokenText := by
    intro s
    cases hq : s.queue <;> simp [processQueue, hq]
  refine ⟨?_, ?_, ?_, ?_, ?_, ?_⟩
  · intro s
    rfl
  · intro s e
    cases e with
    | finish => cases hc : s.platform.current <;> simp [stepEv, hc, hpq]
    | err => cases hc : s.platform.current <;> simp [stepEv, hc, hpq]
    | staleEv => cases hn : s.platform.stale <;> simp [stepEv, hn, hpq]
    | started => cases hc : s.platform.current <;> simp [stepEv, hc]
    | tick shape =>
      simp only [stepEv]
      split <;> simp
  · intro s
    cases hm : s.isMuted <;> simp [toggleMute, hm, cancel]
  · intro cfg inp onEnd g s hm
    simp [speak, hm, fireCb]
  · intro cfg segs onEnd g s hnil
    cases hb : s.isMuted || !cfg.available <;>
      simp [speak, speakRun, hb, hnil, fireCb, cancel]
  · intro cfg segs onEnd g s hm ha hne
    obtain ⟨w, ws, hsegs⟩ : ∃ w ws, normalizeSegments segs = w :: ws := by
      cases hs : normalizeSegments segs with
      | nil => exact absurd hs hne
      | cons w ws => exact ⟨w, ws, rfl⟩
    simp [speak, speakRun, hm, ha, hsegs, cancel, platformCancel, processQueue, fireCb]

/-- Claim C10, witness: concrete instances of the three suppressed /
successful `speak` cases. -/
theorem C10_spokenText_frame_witness :
    (speak cfgDemo (Sum.inl "x") none "en"
        { initState with isMuted := true, spokenText := "kept" }).spokenText
      = ({ initState with isMuted := true, spokenText := "kept" } :
          EngineState).spokenText ∧
    (speak cfgDemo (Sum.inr [⟨" ", "en"⟩]) none "en"
        { initState with spokenText := "kept" }).spokenText
      = ({ initState with spokenText := "kept" } : EngineState).spokenText ∧
    (speak cfgDemo (Sum.inr [⟨"hi", "en"⟩, ⟨"there", "en"⟩]) none "en"
        initState).spokenText
      = String.intercalate " "
          ((normalizeSegments [⟨"hi", "en"⟩, ⟨"there", "en"⟩]).map
            SpeechSegment.text) :=
  ⟨C10_spokenText_frame.2.2.2.1 cfgDemo (Sum.inl "x") none "en"
      { initState with isMuted := true, spokenText := "kept" } rfl,
   C10_spokenText_frame.2.2.2.2.1 cfgDemo [⟨" ", "en"⟩] none "en"
      { initState with spokenText := "kept" } (by decide),
   C10_spokenText_frame.2.2.2.2.2 cfgDemo [⟨"hi", "en"⟩, ⟨"there", "en"⟩]
      none "en" initState rfl rfl (by decide)⟩

theorem cbBudget_processQueue (i : Nat) (s : EngineState) :
    cbBudget i (processQueue s) = cbBudget i s := by
  cases hq : s.queue with
  | cons u rest => simp [processQueue, hq, cbBudget]
  | nil =>
    cases hcb : s.onEndCb with
    | none => simp [processQueue, hq, cbBudget, hcb]
    | some j =>
      by_cases hj : j = i
      · subst hj
        simp [processQueue, hq, cbBudget, hcb, List.count_append]
      · simp [processQueue, hq, cbBudget, hcb, List.count_append,
          List.count_cons, hj]

theorem cbBudget_cancel_le (i : Nat) (s : EngineState) :
    cbBudget i (cancel s) ≤ cbBudget i s := by
  have h : cbBudget i (cancel s) = s.fired.count i := by
    simp [cancel, cbBudget]
  rw [h, cbBudget]
  exact Nat.le_add_right _ _

theorem cbBudget_stepEv_le (i : Nat) (e : Ev) (s : EngineState) :
    cbBudget i ((stepEv e s).getD s) ≤ cbBudget i s := by
  cases e with
  | finish =>
    cases hc : s.platform.current with
    | nil => simp [stepEv, hc]
    | cons u rest =>
      simp only [stepEv, hc, Option.getD_some]
      rw [cbBudget_processQueue]
      exact Nat.le_refl _
  | err =>
    cases hc : s.platform.current with
    | nil => simp [stepEv, hc]
    | cons u rest =>
      simp only [stepEv, hc, Option.getD_some]
      rw [cbBudget_processQueue]
      exact Nat.le_refl _
  | staleEv =>
    cases hn : s.platform.stale with
    | zero => simp [stepEv, hn]
    | succ n =>
      simp only [stepEv, hn, Option.getD_some]
      rw [cbBudget_processQueue]
      exact Nat.le_refl _
  | started =>
    cases hc : s.platform.current <;> simp [stepEv, hc, cbBudget]
  | tick shape =>
    simp only [stepEv]
    split <;> simp [cbBudget]

theorem count_toList_eq_zero (i : Nat) (onEnd : Option Nat)
    (hf : onEnd ≠ some i) : onEnd.toList.count i = 0 := by
  cases onEnd with
  | none => rfl
  | some j =>
    have hj : j ≠ i := fun h => hf (by rw [h])
    simp [List.count_cons, hj]

theorem cbBudget_fireCb_le (i : Nat) (onEnd : Option Nat) (s : EngineState)
    (hf : onEnd ≠ some i) : cbBudget i (fireCb onEnd s) ≤ cbBudget i s := by
  simp [fireCb, cbBudget, List.count_append, count_toList_eq_zero i onEnd hf]

theorem cbBudget_speakRun_le (cfg : Config) (segs : List SpeechSegment)
    (onEnd : Option Nat) (g : String) (i : Nat) (s1 : EngineState)
    (hf : onEnd ≠ some i) :
    cbBudget i (speakRun cfg segs onEnd g s1) ≤ cbBudget i s1 := by
  cases hn : normalizeSegments segs with
  | nil =>
    simp only [speakRun, hn, List.isEmpty_nil, if_true]
    exact cbBudget_fireCb_le i onEnd s1 hf
  | cons w ws =>
    simp only [speakRun, hn, List.isEmpty_cons, if_false, Bool.false_eq_true]
    have hb2 : cbBudget i
        { s1 with
          spokenText := String.intercalate " " ((w :: ws).map SpeechSegment.text),
          isSpeaking := true, mouthShape := "A", onEndCb := onEnd,
          queue := s1.queue ++ (w :: ws).map (buildUtterance cfg g) }
        ≤ cbBudget i s1 := by
      simp only [cbBudget, hf, if_false]
      exact Nat.le_add_right _ _
    split
    · rw [cbBudget_processQueue]
      exact hb2
    · exact hb2

theorem cbBudget_speak_le (cfg : Config) (inp : Sum String (List SpeechSegment))
    (onEnd : Option Nat) (g : String) (i : Nat) (s : EngineState)
    (hf : onEnd ≠ some i) :
    cbBudget i (speak cfg inp onEnd g s) ≤ cbBudget i s := by
  cases hb : s.isMuted || !cfg.available with
  | true =>
    simp only [speak, hb]
    exact cbBudget_fireCb_le i onEnd s hf
  | false =>
    simp only [speak, hb, Bool.false_eq_true, if_false]
    exact Nat.le_trans
      (cbBudget_speakRun_le cfg _ onEnd g i (cancel s) hf)
      (cbBudget_cancel_le i s)

theorem cbBudget_toggleMute_le (i : Nat) (s : EngineState) :
    cbBudget i (toggleMute s) ≤ cbBudget i s := by
  cases hm : s.isMuted with
  | true => simp [toggleMute, hm, cbBudget]
  | false =>
    simp only [toggleMute, hm]
    refine Nat.le_trans ?_ (cbBudget_cancel_le i s)
    simp [cbBudget, cancel]

theorem cbBudget_applyAct_le (cfg : Config) (i : Nat) (a : Act)
    (s : EngineState) (hf : ActFresh i a) :
    cbBudget i (applyAct cfg a s) ≤ cbBudget i s := by
  cases a with
  | ev e => exact cbBudget_stepEv_le i e s
  | speakAct inp onEnd g => exact cbBudget_speak_le cfg inp onEnd g i s hf
  | cancelAct => exact cbBudget_cancel_le i s
  | muteAct => exact cbBudget_toggleMute_le i s

theorem cbBudget_runActs_le (cfg : Config) (i : Nat) (acts : List Act) :
    ∀ s : EngineState, (∀ a ∈ acts, ActFresh i a) →
      cbBudget i (runActs cfg acts s) ≤ cbBudget i s := by
  induction acts with
  | nil => intro s _; exact Nat.le_refl _
  | cons a rest ih =>
    intro s hfr
    refine Nat.le_trans (ih (applyAct cfg a s) fun b hb => hfr b ?_) ?_
    · exact List.mem_cons_of_mem a hb
    · exact cbBudget_applyAct_le cfg i a s (hfr a (List.mem_cons_self a rest))

/-- The state after `speak("hello")` with callback id 0 from the initial
state: one utterance in flight, callback 0 stored and not yet invoked. -/
def c1Speaking : EngineState :=
  speak cfgDemo (Sum.inl "hello") (some 0) "en" initState

/-- Claim C1, counterexample: a request stores its callback (id 0) and
has not invoked it; cancelling the request invokes nothing — the `fired`
log stays empty — and discards the stored callback, so the callback of a
cancelled request fires zero times, not "exactly once ... immediately if
the request is cancelled" as the claim states. -/
theorem C1_counterexample :
    c1Speaking.onEndCb = some 0 ∧ c1Speaking.fired = [] ∧
    (cancel c1Speaking).fired = [] ∧ (cancel c1Speaking).onEndCb = none := by
  decide

/-- Claim C1, amended: a request's callback fires at most once, never
twice: (1) `cancel` invokes nothing and discards the stored callback, so
a cancelled or pre-empted request's callback fires zero times; (2) when
the last in-flight utterance ends with the queue empty, the stored
callback is invoked and cleared in the same step (the full-drain
invocation); (3) along any sequence of engine actions in which no new
`speak` reuses callback id `i`, the total number of invocations of `i`
plus its pending installation never exceeds one. -/
theorem C1_amended_at_most_once :
    (∀ s : EngineState, (cancel s).fired = s.fired ∧ (cancel s).onEndCb = none) ∧
    (∀ (s : EngineState) (i : Nat) (u : Utterance) (rest : List Utterance),
      s.platform.current = u :: rest → s.queue = [] → s.onEndCb = some i →
      stepEv Ev.finish s
        = some { s with platform := { s.platform with current := rest },
                        isSpeaking := false, mouthShape := "X",
                        intervalActive := false,
                        fired := s.fired ++ [i], onEndCb := none }) ∧
    (∀ (cfg : Config) (i : Nat) (acts : List Act) (s : EngineState),
      cbBudget i s ≤ 1 → (∀ a ∈ acts, ActFresh i a) →
      cbBudget i (runActs cfg acts s) ≤ 1) := by
  refine ⟨?_, ?_, ?_⟩
  · intro s
    exact ⟨rfl, rfl⟩
  · intro s i u rest hc hq hcb
    simp [stepEv, hc, processQueue, hq, hcb]
  · intro cfg i acts s hs hfr
    exact Nat.le_trans (cbBudget_runActs_le cfg i acts s hfr) hs

/-- Claim C1, witness: the drain step from a one-utterance state fires
callback 0 exactly once, and the budget bound holds along a concrete
pre-emption trace that never reuses id 0. -/
theorem C1_amended_at_most_once_witness :
    stepEv Ev.finish
        { isMuted := false, isSpeaking := true, spokenText := "hi",
          mouthShape := "A", queue := [], onEndCb := some 0,
          intervalActive := true,
          platform := { current := [{ text := "hi", lang := "en-US", voice := none }],
                        stale := 0 },
          fired := [], spoken := [{ text := "hi", lang := "en-US", voice := none }] }
      = some { isMuted := false, isSpeaking := false, spokenText := "hi",
               mouthShape := "X", queue := [], onEndCb := none,
               intervalActive := false,
               platform := { current := [], stale := 0 },
               fired := [] ++ [0],
               spoken := [{ text := "hi", lang := "en-US", voice := none }] } ∧
    cbBudget 0 (runActs cfgDemo
        [Act.speakAct (Sum.inl "x") (some 1) "en", Act.cancelAct,
         Act.ev Ev.staleEv, Act.ev Ev.finish] c1Speaking) ≤ 1 :=
  ⟨C1_amended_at_most_once.2.1
      { isMuted := false, isSpeaking := true, spokenText := "hi",
        mouthShape := "A", queue := [], onEndCb := some 0,
        intervalActive := true,
        platform := { current := [{ text := "hi", lang := "en-US", voice := none }],
                      stale := 0 },
        fired := [], spoken := [{ text := "hi", lang := "en-US", voice := none }] }
      0 { text := "hi", lang := "en-US", voice := none } [] rfl rfl rfl,
   C1_amended_at_most_once.2.2 cfgDemo 0
      [Act.speakAct (Sum.inl "x") (some 1) "en", Act.cancelAct,
       Act.ev Ev.staleEv, Act.ev Ev.finish] c1Speaking (by decide)
      (by
        intro a ha
        simp only [List.mem_cons, List.not_mem_nil, or_false] at ha
        rcases ha with h | h | h | h <;> subst h <;> simp [ActFresh])⟩

/-- The engine state after `speak("one")` (callback 0) is pre-empted by
`speak("two")` (callback 1): the second request's single utterance is in
flight and the first request's cancelled utterance still owes one stale
lifecycle event. -/
def c2Pre : EngineState :=
  speak cfgDemo (Sum.inl "two") (some 1) "en"
    (speak cfgDemo (Sum.inl "one") (some 0) "en" initState)

/-- The state after that stale event is delivered. -/
def c2Post : EngineState := (stepEv Ev.staleEv c2Pre).getD initState

/-- Claim C2, evaluation at the failing input: before the stale event the
engine is speaking request "two" (speaking flag up, mouth shape "A",
callback 1 pending, one stale event owed); delivering the cancelled
utterance's late event runs `processQueue` with an empty queue, which
flips `isSpeaking` to false, snaps `mouthShape` to neutral, and fires
request "two"'s callback — while "two"'s utterance is still at the
platform. No generation check exists: the stale event is not discarded
and does affect current `isSpeaking`/`mouthShape` state, contradicting
the claim. -/
theorem C2_stale_event_mutates_state :
    c2Pre.isSpeaking = true ∧ c2Pre.mouthShape = "A" ∧
    c2Pre.platform.stale = 1 ∧ c2Pre.onEndCb = some 1 ∧ c2Pre.fired = [] ∧
    (stepEv Ev.staleEv c2Pre).isSome = true ∧
    c2Post.isSpeaking = false ∧ c2Post.mouthShape = "X" ∧
    c2Post.fired = [1] ∧
    c2Post.platform.current = c2Pre.platform.current ∧
    c2Pre.platform.current ≠ [] := by
  decide

/-- Invariant of one in-flight request whose utterances are `us`: no
stale events are owed, and the utterances handed to the platform
(`spoken`) are exactly an initial portion of `us` in order — with at most
the last handed one still at the platform and exactly the not-yet-started
tail still queued — or the whole request has drained. In particular the
platform never holds two utterances, and utterance `n+1` is handed over
only in the step that retires utterance `n`. -/
def FifoInv (us : List Utterance) (s : EngineState) : Prop :=
  s.platform.stale = 0 ∧
  ((∃ done u pending, us = done ++ u :: pending ∧ s.spoken = done ++ [u] ∧
      s.platform.current = [u] ∧ s.queue = pending) ∨
   (s.spoken = us ∧ s.platform.current = [] ∧ s.queue = []))

theorem fifoInv_step (us : List Utterance) (s : EngineState) (e : Ev)
    (h : FifoInv us s) : FifoInv us ((stepEv e s).getD s) := by
  obtain ⟨hstale, hcase⟩ := h
  cases e with
  | finish =>
    rcases hcase with ⟨done, u, pending, hus, hsp, hcur, hq⟩ | ⟨hsp, hcur, hq⟩
    · simp only [stepEv, hcur, Option.getD_some]
      cases pending with
      | nil =>
        refine ⟨?_, Or.inr ⟨?_, ?_, ?_⟩⟩
        · simp [processQueue, hq, hstale]
        · simp [processQueue, hq, hsp, hus]
        · simp [processQueue, hq]
        · simp [processQueue, hq]
      | cons w ws =>
        refine ⟨?_, Or.inl ⟨done ++ [u], w, ws, ?_, ?_, ?_, ?_⟩⟩
        · simp [processQueue, hq, hstale]
        · simp [hus]
        · simp [processQueue, hq, hsp]
        · simp [processQueue, hq]
        · simp [processQueue, hq]
    · simp only [stepEv, hcur, Option.getD_none]
      exact ⟨hstale, Or.inr ⟨hsp, hcur, hq⟩⟩
  | err =>
    rcases hcase with ⟨done, u, pending, hus, hsp, hcur, hq⟩ | ⟨hsp, hcur, hq⟩
    · simp only [stepEv, hcur, Option.getD_some]
      cases pending with
      | nil =>
        refine ⟨?_, Or.inr ⟨?_, ?_, ?_⟩⟩
        · simp [processQueue, hq, hstale]
        · simp [processQueue, hq, hsp, hus]
        · simp [processQueue, hq]
        · simp [processQueue, hq]
      | cons w ws =>
        refine ⟨?_, Or.inl ⟨done ++ [u], w, ws, ?_, ?_, ?_, ?_⟩⟩
        · simp [processQueue, hq, hstale]
        · simp [hus]
        · simp [processQueue, hq, hsp]
        · simp [processQueue, hq]
        · simp [processQueue, hq]
    · simp only [stepEv, hcur, Option.getD_none]
      exact ⟨hstale, Or.inr ⟨hsp, hcur, hq⟩⟩
  | staleEv =>
    simp only [stepEv, hstale, Option.getD_none]
    exact ⟨hstale, hcase⟩
  | started =>
    rcases hcase with ⟨done, u, pending, hus, hsp, hcur, hq⟩ | ⟨hsp, hcur, hq⟩
    · simp only [stepEv, hcur, Option.getD_some]
      exact ⟨hstale, Or.inl ⟨done, u, pending, hus, hsp, hcur, hq⟩⟩
    · simp only [stepEv, hcur, Option.getD_none]
      exact ⟨hstale, Or.inr ⟨hsp, hcur, hq⟩⟩
  | tick shape =>
    simp only [stepEv]
    split
    · exact ⟨hstale, hcase⟩
    · exact ⟨hstale, hcase⟩

theorem fifoInv_current_le (us : List Utterance) (t : EngineState)
    (h : FifoInv us t) : t.platform.current.length ≤ 1 := by
  rcases h.2 with ⟨_, u, _, _, _, hcur, _⟩ | ⟨_, hcur, _⟩ <;> simp [hcur]

theorem fifoInv_runEvents (us : List Utterance) (evs : List Ev) :
    ∀ s : EngineState, FifoInv us s → FifoInv us (runEvents evs s) := by
  induction evs with
  | nil => intro s h; exact h
  | cons e rest ih =>
    intro s h
    exact ih ((stepEv e s).getD s) (fifoInv_step us s e h)

/-- Claim C7: a three-segment request started from the idle engine, under
any sequence of delivered lifecycle events, satisfies the FIFO invariant:
the utterances handed to the platform are always an initial portion of
`[u1, u2, u3]` in submission order, at most one utterance is at the
platform at a time (no overlap), utterance `n+1` is handed over exactly in
the step that retires utterance `n` (its end or error event), and the
remaining ones are queued in order. -/
theorem C7_fifo_order (cfg : Config) (sg1 sg2 sg3 : SpeechSegment) (g : String)
    (onEnd : Option Nat) (evs : List Ev) (ha : cfg.available = true)
    (h1 : keepSegment sg1 = true) (h2 : keepSegment sg2 = true)
    (h3 : keepSegment sg3 = true) :
    FifoInv
      [buildUtterance cfg g sg1, buildUtterance cfg g sg2, buildUtterance cfg g sg3]
      (runEvents evs (speak cfg (Sum.inr [sg1, sg2, sg3]) onEnd g initState)) ∧
    (runEvents evs
        (speak cfg (Sum.inr [sg1, sg2, sg3]) onEnd g
          initState)).platform.current.length ≤ 1 := by
  have hN : normalizeSegments [sg1, sg2, sg3] = [sg1, sg2, sg3] := by
    simp [normalizeSegments, List.filter_cons, h1, h2, h3]
  have hstart : speak cfg (Sum.inr [sg1, sg2, sg3]) onEnd g initState =
      { isMuted := false, isSpeaking := true,
        spokenText :=
          String.intercalate " " ([sg1, sg2, sg3].map SpeechSegment.text),
        mouthShape := "A",
        queue := [buildUtterance cfg g sg2, buildUtterance cfg g sg3],
        onEndCb := onEnd, intervalActive := false,
        platform := { current := [buildUtterance cfg g sg1], stale := 0 },
        fired := [], spoken := [buildUtterance cfg g sg1] } := by
    simp [speak, speakRun, ha, hN, initState, cancel, platformCancel,
      processQueue, fireCb]
  rw [hstart]
  have hinv : FifoInv
      [buildUtterance cfg g sg1, buildUtterance cfg g sg2, buildUtterance cfg g sg3]
      { isMuted := false, isSpeaking := true,
        spokenText :=
          String.intercalate " " ([sg1, sg2, sg3].map SpeechSegment.text),
        mouthShape := "A",
        queue := [buildUtterance cfg g sg2, buildUtterance cfg g sg3],
        onEndCb := onEnd, intervalActive := false,
        platform := { current := [buildUtterance cfg g sg1], stale := 0 },
        fired := [], spoken := [buildUtterance cfg g sg1] } :=
    ⟨rfl, Or.inl ⟨[], buildUtterance cfg g sg1,
      [buildUtterance cfg g sg2, buildUtterance cfg g sg3], rfl, rfl, rfl, rfl⟩⟩
  have hfin := fifoInv_runEvents _ evs _ hinv
  exact ⟨hfin, fifoInv_current_le _ _ hfin⟩

/-- Claim C7, witness: the concrete request `["a", "b", "c"]` under the
event sequence start, end, error, end. -/
theorem C7_fifo_order_witness :
    FifoInv
      [buildUtterance cfgDemo "en" ⟨"a", "en"⟩,
       buildUtterance cfgDemo "en" ⟨"b", "en"⟩,
       buildUtterance cfgDemo "en" ⟨"c", "en"⟩]
      (runEvents [Ev.started, Ev.finish, Ev.err, Ev.finish]
        (speak cfgDemo (Sum.inr [⟨"a", "en"⟩, ⟨"b", "en"⟩, ⟨"c", "en"⟩])
          none "en" initState)) ∧
    (runEvents [Ev.started, Ev.finish, Ev.err, Ev.finish]
        (speak cfgDemo (Sum.inr [⟨"a", "en"⟩, ⟨"b", "en"⟩, ⟨"c", "en"⟩])
          none "en" initState)).platform.current.length ≤ 1 :=
  C7_fifo_order cfgDemo ⟨"a", "en"⟩ ⟨"b", "en"⟩ ⟨"c", "en"⟩ "en" none
    [Ev.started, Ev.finish, Ev.err, Ev.finish] rfl (by decide) (by decide)
    (by decide)

end SpeechEngine
